import Mathlib

/-!
Verification of the concurrent recursive listing engine and the
composite-ID / shortcut-resolution scheme of `backend/clouddrive/drive.go`.

IDs and paths are modelled as `List Char` / `String`; the Go code indexes
IDs by byte, and the reserved separator `'\t'` is a one-byte rune, so the
character-level model is faithful for the operations used here.
-/

namespace Clouddrive

/-- An object-store ID, modelled as a list of characters. -/
abbrev ID := List Char

/-- Constant `shortcutSeparator = '\t'` (drive.go line 1492). -/
def shortcutSeparator : Char := '\t'

/-- Function `joinID` (drive.go lines 1498-1500): `actual + string(shortcutSeparator) + shortcut`. -/
def joinID (actual shortcut : ID) : ID :=
  actual ++ [shortcutSeparator] ++ shortcut

/-- Function `splitID` (drive.go lines 1504-1510): find the first occurrence of the
separator; if absent return `(compositeID, "")`, else split around it.
The Go code computes `i := strings.IndexRune(...)` and slices; this
recursion produces exactly `(compositeID[:i], compositeID[i+1:])` when the
separator occurs first at index `i`, and `(compositeID, "")` when `i < 0`. -/
def splitID : ID → ID × ID
  | [] => ([], [])
  | c :: rest =>
    if c = shortcutSeparator then ([], rest)
    else
      let p := splitID rest
      (c :: p.1, p.2)

/-- Function `isShortcutID` (drive.go lines 1513-1515): `strings.ContainsRune(compositeID, shortcutSeparator)`. -/
def isShortcutID (compositeID : ID) : Bool :=
  compositeID.contains shortcutSeparator

/-- Function `actualID` (drive.go lines 1518-1521). -/
def actualID (compositeID : ID) : ID :=
  (splitID compositeID).1

/-- Function `shortcutID` (drive.go lines 1525-1531): the shortcut part if non-empty,
else the actual part. -/
def shortcutID (compositeID : ID) : ID :=
  let p := splitID compositeID
  if p.2 ≠ [] then p.2 else p.1

theorem splitID_no_sep (idv : ID) (h : shortcutSeparator ∉ idv) :
    splitID idv = (idv, []) := by
  induction idv with
  | nil => rfl
  | cons c rest ih =>
    have hc : c ≠ shortcutSeparator := by
      intro he; exact h (he ▸ List.mem_cons_self c rest)
    have hr : shortcutSeparator ∉ rest := fun hm => h (List.mem_cons_of_mem c hm)
    simp [splitID, hc, ih hr]

theorem splitID_joinID_eq (a s : ID) (ha : shortcutSeparator ∉ a) :
    splitID (joinID a s) = (a, s) := by
  induction a with
  | nil => simp [joinID, splitID]
  | cons c rest ih =>
    have hc : c ≠ shortcutSeparator := by
      intro he; exact ha (he ▸ List.mem_cons_self c rest)
    have hr : shortcutSeparator ∉ rest := fun hm => ha (List.mem_cons_of_mem c hm)
    have := ih hr
    simp [joinID] at this ⊢
    simp [splitID, hc, this]

/-- C5: for every pair of IDs `(a, s)` that do not contain the reserved
separator, `splitID (joinID a s) = (a, s)`; decoding is total (a total
function by construction) and lossless, and splitting an ID containing no
separator yields the ID itself with an empty shortcut component. -/
theorem C5_split_join_roundtrip (a s idv : ID)
    (ha : shortcutSeparator ∉ a) (hs : shortcutSeparator ∉ s)
    (hid : shortcutSeparator ∉ idv) :
    splitID (joinID a s) = (a, s) ∧ splitID idv = (idv, []) :=
  ⟨splitID_joinID_eq a s ha, splitID_no_sep idv hid⟩

/-- Witness for C5 at concrete IDs. -/
theorem C5_split_join_roundtrip_witness :
    splitID (joinID ['x', 'y'] ['s', '1']) = (['x', 'y'], ['s', '1']) ∧
      splitID ['p', 'q'] = (['p', 'q'], []) :=
  C5_split_join_roundtrip ['x', 'y'] ['s', '1'] ['p', 'q']
    (by decide) (by decide) (by decide)

/-- C6 counterexample: the claim states `isShortcut (join a "")` is `false`,
but `joinID` appends the separator unconditionally, so the result contains
the separator and `isShortcutID` returns `true`. -/
theorem C6_counterexample :
    isShortcutID (joinID ['a'] []) = true := by decide

/-- C6 amended: `joinID a ""` always contains the separator, so
`isShortcutID (joinID a "")` is `true` — it does NOT behave like the plain
ID `a` under `isShortcutID` (which is `false` for separator-free `a`); it
does behave identically to `a` under `splitID`/`actualID`, whose result is
`(a, "")` resp. `a`. -/
theorem C6_join_empty_shortcut (a : ID) (ha : shortcutSeparator ∉ a) :
    isShortcutID (joinID a []) = true ∧
      isShortcutID a = false ∧
      splitID (joinID a []) = (a, []) ∧
      actualID (joinID a []) = actualID a := by
  refine ⟨?_, ?_, splitID_joinID_eq a [] ha, ?_⟩
  · simp [isShortcutID, joinID, List.contains_eq_any_beq]
  · simp only [isShortcutID, List.contains_eq_any_beq]
    rw [List.any_eq_false]
    intro c hc
    simp only [beq_iff_eq]
    intro he; exact ha (he ▸ hc)
  · rw [actualID, actualID, splitID_joinID_eq a [] ha, splitID_no_sep a ha]

/-- Witness for C6 amended at a concrete ID. -/
theorem C6_join_empty_shortcut_witness :
    isShortcutID (joinID ['a'] []) = true ∧
      isShortcutID ['a'] = false ∧
      splitID (joinID ['a'] []) = (['a'], []) ∧
      actualID (joinID ['a'] []) = actualID ['a'] :=
  C6_join_empty_shortcut ['a'] (by decide)

/-- Constant `listRGrouping = 50` (drive.go line 74): default number of directory IDs
searched at once by ListR. -/
def listRGrouping : Nat := 50

/-- Constant `listRInputBuffer = 1000` (drive.go line 75): capacity of the ListR job
channel. -/
def listRInputBuffer : Nat := 1000

/-- The shared grouping state: `f.grouping` (an atomically accessed integer)
and `f.listRempties` (a set of directory IDs, `map[string]struct{}`, guarded
by `f.listRmu`).  Membership mutation happens under the mutex, modelled here
by explicit state passing. -/
structure GroupingState where
  grouping : Nat
  empties : Finset String
deriving DecidableEq

/-- A `listREntry` job (drive.go lines 1208-1210): directory ID and path. -/
structure ListREntry where
  id : String
  path : String
deriving DecidableEq, Repr

/-- Result of the zero-items regrouping step of `listRRunner`
(drive.go lines 1317-1332): the updated shared state, the jobs re-enqueued
via `sendJob`, and whether the disable-transition debug line was logged. -/
structure RegroupResult where
  state : GroupingState
  requeued : List ListREntry
  loggedDisable : Bool
deriving DecidableEq

/-- The consistency-bug workaround of `listRRunner` (drive.go lines
1312-1332).  `dirs`/`paths` are the batch after sorting, `foundItems` the
flag set by the listing callback.  When more than one directory was queried
and nothing came back: swap the shared group size to 1 (the debug line fires
iff the swapped-out value was not already 1), re-enqueue every directory of
the batch as its own singleton job, and record each directory ID in the
suspect-empty set — all of the set mutation under `f.listRmu`. -/
def regroupOnEmpty (st : GroupingState) (dirs paths : List String)
    (foundItems : Bool) : RegroupResult :=
  if dirs.length > 1 ∧ foundItems = false then
    { state :=
        { grouping := 1,
          empties := st.empties ∪ dirs.toFinset },
      requeued := (dirs.zip paths).map (fun p => ⟨p.1, p.2⟩),
      loggedDisable := st.grouping ≠ 1 }
  else
    { state := st, requeued := [], loggedDisable := false }

/-- Result of the singleton-empty recovery step of `listRRunner`
(drive.go lines 1333-1350). -/
structure RecoverResult where
  state : GroupingState
  loggedReenable : Bool
deriving DecidableEq

/-- The grouping-recovery step of `listRRunner` (drive.go lines 1333-1350).
`batchGrouping` is the local `grouping` variable read from the shared state
at the start of the batch (line 1248).  If the batch used grouping 1, had
exactly one directory and found nothing: under the mutex, if that directory
is in the suspect-empty set remove it, and if the set thereby becomes empty
swap the shared group size back to `listRGrouping` (the debug line fires iff
the swapped-out value was not already `listRGrouping`). -/
def recoverOnSingletonEmpty (st : GroupingState) (batchGrouping : Nat)
    (dirs : List String) (foundItems : Bool) : RecoverResult :=
  if batchGrouping = 1 ∧ dirs.length = 1 ∧ foundItems = false then
    match dirs with
    | [d] =>
      if d ∈ st.empties then
        let e := st.empties.erase d
        if e = ∅ then
          { state := { grouping := listRGrouping, empties := e },
            loggedReenable := st.grouping ≠ listRGrouping }
        else
          { state := { st with empties := e }, loggedReenable := false }
      else
        { state := st, loggedReenable := false }
    | _ => { state := st, loggedReenable := false }
  else
    { state := st, loggedReenable := false }

/-- C3: whenever a batch with more than one directory returns zero items,
the worker drops the shared group size to 1 (logging exactly when the
previous value was not already 1), re-enqueues each directory of the batch
as its own singleton job (in batch order, paired with its path), and adds
each of the batch's directory IDs to the shared suspect-empty set, keeping
the previous members. -/
theorem C3_regroup_on_empty_batch (st : GroupingState)
    (dirs paths : List String) (foundItems : Bool)
    (hlen : dirs.length > 1) (hfound : foundItems = false) :
    (regroupOnEmpty st dirs paths foundItems).state.grouping = 1 ∧
      (regroupOnEmpty st dirs paths foundItems).requeued =
        (dirs.zip paths).map (fun p => ⟨p.1, p.2⟩) ∧
      (∀ d ∈ dirs, d ∈ (regroupOnEmpty st dirs paths foundItems).state.empties) ∧
      (∀ d ∈ st.empties, d ∈ (regroupOnEmpty st dirs paths foundItems).state.empties) ∧
      ((regroupOnEmpty st dirs paths foundItems).loggedDisable = true ↔
        st.grouping ≠ 1) := by
  simp only [regroupOnEmpty, if_pos (And.intro hlen hfound)]
  refine ⟨by simp, by simp, ?_, ?_, by simp⟩
  · intro d hd
    simp [Finset.mem_union, List.mem_toFinset, hd]
  · intro d hd
    simp [Finset.mem_union, hd]

/-- Witness for C3 at a concrete two-directory batch. -/
theorem C3_regroup_on_empty_batch_witness :
    (regroupOnEmpty ⟨50, ∅⟩ ["a", "b"] ["pa", "pb"] false).state.grouping = 1 ∧
      (regroupOnEmpty ⟨50, ∅⟩ ["a", "b"] ["pa", "pb"] false).requeued =
        ((["a", "b"].zip ["pa", "pb"]).map (fun p => ⟨p.1, p.2⟩)) ∧
      (∀ d ∈ ["a", "b"], d ∈ (regroupOnEmpty ⟨50, ∅⟩ ["a", "b"] ["pa", "pb"] false).state.empties) ∧
      (∀ d ∈ (∅ : Finset String), d ∈ (regroupOnEmpty ⟨50, ∅⟩ ["a", "b"] ["pa", "pb"] false).state.empties) ∧
      ((regroupOnEmpty ⟨50, ∅⟩ ["a", "b"] ["pa", "pb"] false).loggedDisable = true ↔
        (50 : Nat) ≠ 1) :=
  C3_regroup_on_empty_batch ⟨50, ∅⟩ ["a", "b"] ["pa", "pb"] false
    (by decide) rfl

/-- C4: when a singleton batch executed with (locally read) group size 1
returns zero items and its directory ID is in the suspect-empty set, the ID
is removed; if the set thereby becomes empty the shared group size is
restored to the default `listRGrouping`, otherwise the group size is left
unchanged. -/
theorem C4_recover_on_singleton_empty (st : GroupingState) (d : String)
    (hmem : d ∈ st.empties) :
    (recoverOnSingletonEmpty st 1 [d] false).state.empties = st.empties.erase d ∧
      (st.empties.erase d = ∅ →
        (recoverOnSingletonEmpty st 1 [d] false).state.grouping = listRGrouping) ∧
      (st.empties.erase d ≠ ∅ →
        (recoverOnSingletonEmpty st 1 [d] false).state.grouping = st.grouping) := by
  by_cases he : st.empties.erase d = ∅
  · simp [recoverOnSingletonEmpty, hmem, he]
  · simp [recoverOnSingletonEmpty, hmem, he]

/-- Witness for C4: both the restore branch (set becomes empty) and the
keep branch are exercised through the theorem at concrete states. -/
theorem C4_recover_on_singleton_empty_witness :
    (recoverOnSingletonEmpty ⟨1, {"a"}⟩ 1 ["a"] false).state.empties =
        ({"a"} : Finset String).erase "a" ∧
      (({"a"} : Finset String).erase "a" = ∅ →
        (recoverOnSingletonEmpty ⟨1, {"a"}⟩ 1 ["a"] false).state.grouping = listRGrouping) ∧
      (({"a"} : Finset String).erase "a" ≠ ∅ →
        (recoverOnSingletonEmpty ⟨1, {"a"}⟩ 1 ["a"] false).state.grouping = 1) :=
  C4_recover_on_singleton_empty ⟨1, {"a"}⟩ "a" (by decide)

/-- The state touched by `sendJob` (drive.go lines 1392-1417), all accessed
under the mutex `mu`: whether `in` has been set to `nil`, the contents of the
buffered channel `in` (capacity `listRInputBuffer`), the `overflow` slice,
and the outstanding-work counter `wg`. -/
structure SendState where
  inNil : Bool
  chan : List ListREntry
  overflow : List ListREntry
  wg : Nat
deriving DecidableEq

/-- Function `sendJob` (drive.go lines 1404-1417): under `mu`, if `in == nil` return
(the job is dropped); otherwise `wg.Add(1)`, then a non-blocking select —
if the buffered channel has space the job is sent, else the `default` branch
appends it to `overflow` and `wg.Add(-1)` reverts the increment.  The model
records the net effect of the `Add(1)`/`Add(-1)` pair on the counter. -/
def sendJob (st : SendState) (job : ListREntry) : SendState :=
  if st.inNil then st
  else if st.chan.length < listRInputBuffer then
    { st with chan := st.chan ++ [job], wg := st.wg + 1 }
  else
    { st with overflow := st.overflow ++ [job] }

/-- C10: `sendJob` never sends on a closed channel — after the channel has
been closed and set to `nil`, the job is silently discarded and the counter
is unchanged; when the channel buffer is full the job goes to the overflow
slice and the counter increment is reverted (net unchanged); otherwise the
job is enqueued and the counter incremented.  The function is total (the
select has a `default` branch), so no call blocks. -/
theorem C10_sendJob_never_blocks (st : SendState) (job : ListREntry) :
    (st.inNil = true → sendJob st job = st) ∧
      (st.inNil = false → st.chan.length ≥ listRInputBuffer →
        (sendJob st job).overflow = st.overflow ++ [job] ∧
          (sendJob st job).wg = st.wg ∧ (sendJob st job).chan = st.chan) ∧
      (st.inNil = false → st.chan.length < listRInputBuffer →
        (sendJob st job).chan = st.chan ++ [job] ∧
          (sendJob st job).wg = st.wg + 1 ∧
          (sendJob st job).overflow = st.overflow) := by
  refine ⟨fun h => by simp [sendJob, h], fun h hfull => ?_, fun h hroom => ?_⟩
  · have : ¬ st.chan.length < listRInputBuffer := not_lt.mpr hfull
    simp [sendJob, h, this]
  · simp [sendJob, h, hroom]

/-- Witness for C10: the three branches exercised at concrete states —
closed channel, full channel (1000 queued jobs), channel with room. -/
theorem C10_sendJob_never_blocks_witness :
    (sendJob ⟨true, [], [], 0⟩ ⟨"d", "p"⟩ = ⟨true, [], [], 0⟩) ∧
      ((sendJob ⟨false, List.replicate 1000 ⟨"x", "y"⟩, [], 5⟩ ⟨"d", "p"⟩).overflow =
          [] ++ [⟨"d", "p"⟩] ∧
        (sendJob ⟨false, List.replicate 1000 ⟨"x", "y"⟩, [], 5⟩ ⟨"d", "p"⟩).wg = 5 ∧
        (sendJob ⟨false, List.replicate 1000 ⟨"x", "y"⟩, [], 5⟩ ⟨"d", "p"⟩).chan =
          List.replicate 1000 ⟨"x", "y"⟩) ∧
      ((sendJob ⟨false, [], [], 0⟩ ⟨"d", "p"⟩).chan = [] ++ [⟨"d", "p"⟩] ∧
        (sendJob ⟨false, [], [], 0⟩ ⟨"d", "p"⟩).wg = 0 + 1 ∧
        (sendJob ⟨false, [], [], 0⟩ ⟨"d", "p"⟩).overflow = []) :=
  ⟨(C10_sendJob_never_blocks ⟨true, [], [], 0⟩ ⟨"d", "p"⟩).1 rfl,
    (C10_sendJob_never_blocks ⟨false, List.replicate 1000 ⟨"x", "y"⟩, [], 5⟩ ⟨"d", "p"⟩).2.1
      rfl (by rw [List.length_replicate]; exact Nat.le_refl 1000),
    (C10_sendJob_never_blocks ⟨false, [], [], 0⟩ ⟨"d", "p"⟩).2.2
      rfl (by rw [List.length_nil]; exact Nat.zero_lt_succ 999)⟩

/-- The comparison of `listRSlices.Less` (drive.go lines 1231-1233), lifted
to the zipped (dir, path) pairs: compares the `dirs` components only. -/
def listRLess (a b : String × String) : Bool :=
  a.1 ≤ b.1

/-- Procedure `listRSlices{dirs, paths}.Sort()` (drive.go lines 1212-1233, invoked at
line 1261).  `sort.Sort` permutes the indices through `Swap`, which always
exchanges `dirs[i], paths[i]` together, until `Less` — which compares the
`dirs` entries only — reports the slice ordered; observably it replaces the
pair sequence `zip dirs paths` by a permutation of it whose first components
are non-decreasing.  `mergeSort` over the zipped pairs realizes exactly that
effect (Go's sort is likewise not stable, so the order among equal keys is
unspecified in both). -/
def listRSlicesSort (dirs paths : List String) : List String × List String :=
  let sorted := (dirs.zip paths).mergeSort listRLess
  (sorted.map Prod.fst, sorted.map Prod.snd)

theorem listRLess_trans (a b c : String × String)
    (h1 : listRLess a b = true) (h2 : listRLess b c = true) :
    listRLess a c = true := by
  simp only [listRLess, decide_eq_true_eq] at h1 h2 ⊢
  exact le_trans h1 h2

theorem listRLess_total (a b : String × String) :
    (listRLess a b || listRLess b a) = true := by
  simp only [listRLess, Bool.or_eq_true, decide_eq_true_eq]
  exact le_total a.1 b.1

theorem listRSlicesSort_zip (dirs paths : List String) :
    ((listRSlicesSort dirs paths).1.zip (listRSlicesSort dirs paths).2) =
      (dirs.zip paths).mergeSort listRLess := by
  simp only [listRSlicesSort]
  exact Eq.symm (List.zip_of_prod rfl rfl)

/-- C9: sorting a batch with `listRSlices.Sort` permutes the directory-ID
slice and the path slice in lockstep — the multiset of `(dirs[i], paths[i])`
pairs is preserved, the resulting `dirs` is in ascending (non-decreasing)
order, and every resulting position still pairs a path with the directory it
belonged to (each resulting pair occurs in the original zip). -/
theorem C9_listRSlicesSort_lockstep (dirs paths : List String) :
    ((listRSlicesSort dirs paths).1.zip (listRSlicesSort dirs paths).2).Perm
        (dirs.zip paths) ∧
      (listRSlicesSort dirs paths).1.Sorted (· ≤ ·) ∧
      (∀ i (h1 : i < (listRSlicesSort dirs paths).1.length)
          (h2 : i < (listRSlicesSort dirs paths).2.length),
        ((listRSlicesSort dirs paths).1[i], (listRSlicesSort dirs paths).2[i]) ∈
          dirs.zip paths) := by
  have hzip := listRSlicesSort_zip dirs paths
  have hperm : (((listRSlicesSort dirs paths).1.zip
      (listRSlicesSort dirs paths).2)).Perm (dirs.zip paths) := by
    rw [hzip]; exact List.mergeSort_perm _ _
  refine ⟨hperm, ?_, ?_⟩
  · have hpw := List.sorted_mergeSort listRLess_trans listRLess_total
      (dirs.zip paths)
    simp only [listRSlicesSort]
    show List.Pairwise (· ≤ ·)
      (((dirs.zip paths).mergeSort listRLess).map Prod.fst)
    rw [List.pairwise_map]
    exact hpw.imp (fun {a b} h => by
      simpa only [listRLess, decide_eq_true_eq] using h)
  · intro i h1 h2
    have hm : ((listRSlicesSort dirs paths).1[i],
        (listRSlicesSort dirs paths).2[i]) ∈
        ((listRSlicesSort dirs paths).1.zip (listRSlicesSort dirs paths).2) := by
      have hlt : i < ((listRSlicesSort dirs paths).1.zip
          (listRSlicesSort dirs paths).2).length := by
        rw [List.length_zip]; exact lt_min h1 h2
      have hz := @List.getElem_zip String String
        (listRSlicesSort dirs paths).1 (listRSlicesSort dirs paths).2 i hlt
      rw [← hz]
      exact List.getElem_mem hlt
    exact hperm.mem_iff.mp hm

/-- Go `sort.SearchStrings(dirs, parent)` (used at drive.go line 1287):
binary search for the smallest index `i` with `dirs[i] >= parent` on an
ascending slice, returning `len(dirs)` when no such index exists.  On a
sorted slice the binary search coincides with this linear lower-bound scan,
which is how it is modelled here; the sortedness of `dirs` is established
by `listRSlices.Sort` at line 1261. -/
def searchStrings (l : List String) (x : String) : Nat :=
  match l with
  | [] => 0
  | a :: rest => if x ≤ a then 0 else searchStrings rest x + 1

/-- Hit test of the binary search as performed at drive.go line 1288:
the item's parent is "in the requested dirs list" iff
`i < len(dirs) && dirs[i] == parent` for `i = searchStrings dirs parent`.
On a sorted `dirs` this is exactly list membership. -/
theorem searchStrings_hit_iff_mem (l : List String) (x : String)
    (hsorted : l.Sorted (· ≤ ·)) :
    (∃ h : searchStrings l x < l.length, l.get ⟨searchStrings l x, h⟩ = x) ↔
      x ∈ l := by
  induction l with
  | nil => simp [searchStrings]
  | cons a rest ih =>
    have hrest : rest.Sorted (· ≤ ·) := hsorted.tail
    have hall : ∀ b ∈ rest, a ≤ b := fun b hb =>
      List.rel_of_sorted_cons hsorted b hb
    by_cases hxa : x ≤ a
    · simp only [searchStrings, if_pos hxa]
      constructor
      · rintro ⟨h, hget⟩
        simp only [List.get] at hget
        exact hget ▸ List.mem_cons_self a rest
      · intro hmem
        refine ⟨by simp, ?_⟩
        rcases List.mem_cons.mp hmem with heq | hmemr
        · simp [heq]
        · have hax : a ≤ x := hall x hmemr
          simp [le_antisymm hax hxa]
    · have hax : a < x := lt_of_not_le hxa
      simp only [searchStrings, if_neg hxa]
      constructor
      · rintro ⟨h, hget⟩
        have h2 : searchStrings rest x < rest.length := by
          simpa [Nat.succ_lt_succ_iff] using h
        have : rest.get ⟨searchStrings rest x, h2⟩ = x := by
          simpa [List.get] using hget
        exact List.mem_cons_of_mem a (ih hrest |>.mp ⟨h2, this⟩)
      · intro hmem
        have hmemr : x ∈ rest := by
          rcases List.mem_cons.mp hmem with heq | hr
          · exact absurd heq.symm (ne_of_lt hax)
          · exact hr
        obtain ⟨h2, hget⟩ := (ih hrest).mpr hmemr
        refine ⟨by simpa [Nat.succ_lt_succ_iff] using h2, ?_⟩
        simpa [List.get] using hget

/-- The per-parent dispatch loop of the `listRRunner` listing callback
(drive.go lines 1269-1309), recording the `(paths[i], item.Name)` pairs for
the entries handed to `cb`.  Per parent: if the batch has a single path,
use index 0 and set `earlyExit`, emitting once and breaking out of the
loop; otherwise binary-search the sorted `dirs` for the parent and skip
(`continue`) parents not in the batch.  `itemToDirEntry` and `cb` are taken
to succeed throughout (no `iErr`): the modelled property is which entries
are emitted, not the error path. -/
def dispatchParents (dirs paths : List String) (name : String) :
    List String → List (String × String)
  | [] => []
  | parent :: rest =>
    if paths.length = 1 then [(paths.headD "", name)]
    else
      let i := searchStrings dirs parent
      if hlt : i < dirs.length then
        if dirs.get ⟨i, hlt⟩ = parent then
          (paths.getD i "", name) :: dispatchParents dirs paths name rest
        else dispatchParents dirs paths name rest
      else dispatchParents dirs paths name rest

/-- One item's dispatch in the `listRRunner` callback (drive.go lines
1264-1311) including the shared-with-me patch of lines 1266-1268: an item
with no parents listed at the root singleton batch with the shared-with-me
option on gets the batch itself as its parent list. -/
def dispatchItem (sharedWithMe : Bool) (dirs paths : List String)
    (itemParents : List String) (name : String) : List (String × String) :=
  let parents :=
    if sharedWithMe = true ∧ itemParents = [] ∧ paths = [""] then dirs
    else itemParents
  dispatchParents dirs paths name parents

theorem dispatchParents_multi (dirs paths : List String) (name : String)
    (ps : List String) (hsorted : dirs.Sorted (· ≤ ·))
    (hlen : paths.length ≠ 1) :
    dispatchParents dirs paths name ps =
      ps.filterMap (fun p => if p ∈ dirs then
        some (paths.getD (searchStrings dirs p) "", name) else none) := by
  induction ps with
  | nil => rfl
  | cons p rest ih =>
    simp only [dispatchParents, if_neg hlen, List.filterMap_cons]
    by_cases hmem : p ∈ dirs
    · obtain ⟨hlt, hget⟩ := (searchStrings_hit_iff_mem dirs p hsorted).mpr hmem
      rw [dif_pos hlt, if_pos hget, if_pos hmem, ih]
    · have hno : ¬ ∃ h : searchStrings dirs p < dirs.length,
          dirs.get ⟨searchStrings dirs p, h⟩ = p :=
        fun hx => hmem ((searchStrings_hit_iff_mem dirs p hsorted).mp hx)
      rw [if_neg hmem]
      by_cases hlt : searchStrings dirs p < dirs.length
      · have hne : dirs.get ⟨searchStrings dirs p, hlt⟩ ≠ p :=
          fun he => hno ⟨hlt, he⟩
        rw [dif_pos hlt, if_neg hne, ih]
      · rw [dif_neg hlt, ih]

theorem length_filterMap_ite {α β : Type} (g : α → β) (q : α → Prop)
    [DecidablePred q] (l : List α) :
    (l.filterMap (fun p => if q p then some (g p) else none)).length =
      (l.filter (fun p => decide (q p))).length := by
  induction l with
  | nil => rfl
  | cons a l ih =>
    by_cases h : q a <;> simp [h, ih]

/-- C2 counterexample: the claim states that in a singleton batch the item
is emitted exactly once unconditionally, but an item whose parent list is
empty, when the shared-with-me root patch does not apply (here: option
off), is not emitted at all. -/
theorem C2_counterexample :
    (dispatchItem false ["d1"] ["p1"] [] "f").length ≠ 1 := by decide

/-- C2 amended: in a singleton batch the item is emitted exactly once under
that directory's path provided its parent list is non-empty, or it is
patched to the batch by the shared-with-me root rule (option on, root batch,
non-empty batch); an item with an empty parent list and no patch is not
emitted.  In a batch with more than one member the worker intersects the
parent list with the sorted batch via binary search and emits one entry per
parent found, i.e. once per matching parent. -/
theorem C2_dispatch_per_parent (sharedWithMe : Bool)
    (dirs paths itemParents : List String) (name : String)
    (hsorted : dirs.Sorted (· ≤ ·)) :
    (∀ p, paths = [p] → itemParents ≠ [] →
      dispatchItem sharedWithMe dirs paths itemParents name = [(p, name)]) ∧
      (paths = [""] → itemParents = [] → sharedWithMe = true → dirs ≠ [] →
        dispatchItem sharedWithMe dirs paths itemParents name = [("", name)]) ∧
      (itemParents = [] → sharedWithMe = false →
        dispatchItem sharedWithMe dirs paths itemParents name = []) ∧
      (1 < paths.length →
        dispatchItem sharedWithMe dirs paths itemParents name =
          itemParents.filterMap (fun p => if p ∈ dirs then
            some (paths.getD (searchStrings dirs p) "", name) else none) ∧
        (dispatchItem sharedWithMe dirs paths itemParents name).length =
          (itemParents.filter (fun p => decide (p ∈ dirs))).length) := by
  refine ⟨?_, ?_, ?_, ?_⟩
  · intro p hp hne
    subst hp
    match itemParents, hne with
    | q :: qs, _ =>
      simp [dispatchItem, dispatchParents]
  · intro hp hpar hswm hdirs
    subst hp hpar hswm
    match dirs, hdirs with
    | d :: ds, _ => simp [dispatchItem, dispatchParents]
  · intro hpar hswm
    subst hpar hswm
    simp [dispatchItem, dispatchParents]
  · intro hgt
    have hne1 : paths.length ≠ 1 := Nat.ne_of_gt hgt
    have hpaths : paths ≠ [""] := by
      intro he; exact hne1 (by simp [he])
    have heff : dispatchItem sharedWithMe dirs paths itemParents name =
        dispatchParents dirs paths name itemParents := by
      simp only [dispatchItem]
      rcases itemParents with _ | ⟨q, qs⟩
      · rw [if_neg (fun hx => hpaths hx.2.2)]
      · rw [if_neg (fun hx => List.cons_ne_nil q qs hx.2.1)]
    rw [heff, dispatchParents_multi dirs paths name itemParents hsorted hne1]
    exact ⟨rfl, length_filterMap_ite _ _ _⟩

theorem sorted_one (a : String) : List.Sorted (· ≤ ·) [a] :=
  List.sorted_singleton a

theorem sorted_two (a b : String) (h : a ≤ b) :
    List.Sorted (· ≤ ·) [a, b] := by
  refine List.sorted_cons.mpr ⟨?_, List.sorted_singleton b⟩
  intro c hc
  rw [List.mem_singleton] at hc
  subst hc
  exact h

theorem str_a_le_b : ("a" : String) ≤ "b" := by
  rw [String.le_iff_toList_le]; decide

/-- Witness for C2 amended: the four branches at concrete batches — a
singleton with a parent, the shared-with-me root patch, a parentless item
without the patch, and a two-directory batch where one of the item's two
parents is in the batch. -/
theorem C2_dispatch_per_parent_witness :
    dispatchItem false ["d"] ["p"] ["d"] "f" = [("p", "f")] ∧
      dispatchItem true ["r"] [""] [] "f" = [("", "f")] ∧
      dispatchItem false ["d"] ["p"] [] "f" = [] ∧
      (dispatchItem false ["a", "b"] ["pa", "pb"] ["b", "z"] "f" =
        (["b", "z"].filterMap (fun p => if p ∈ ["a", "b"] then
          some ((["pa", "pb"].getD (searchStrings ["a", "b"] p) ""), "f")
          else none)) ∧
        (dispatchItem false ["a", "b"] ["pa", "pb"] ["b", "z"] "f").length =
          (["b", "z"].filter (fun p => decide (p ∈ ["a", "b"]))).length) :=
  ⟨(C2_dispatch_per_parent false ["d"] ["p"] ["d"] "f" (sorted_one "d")).1
      "p" rfl (by decide),
    (C2_dispatch_per_parent true ["r"] [""] [] "f" (sorted_one "r")).2.1
      rfl rfl rfl (by decide),
    (C2_dispatch_per_parent false ["d"] ["p"] [] "f" (sorted_one "d")).2.2.1
      rfl rfl,
    (C2_dispatch_per_parent false ["a", "b"] ["pa", "pb"] ["b", "z"] "f"
      (sorted_two "a" "b" str_a_le_b)).2.2.2 (by decide)⟩

/-- Mime-type constants (drive.go lines 59-61). -/
def driveFolderType : String := "application/vnd.google-apps.folder"

def shortcutMimeType : String := "application/vnd.google-apps.shortcut"

def shortcutMimeTypeDangling : String :=
  "application/vnd.google-apps.shortcut.dangling"

/-- Structure `drive.File.ShortcutDetails` — the fields the engine reads. -/
structure ShortcutDetails where
  targetId : ID
  targetMimeType : String
deriving DecidableEq, Repr

/-- A remote item (`*drive.File`) restricted to the fields the listing
engine reads or writes: identity and naming, the parent list, the trashed
flag, the shortcut reference, and the content metadata (`size`,
`md5Checksum`, `modifiedTime`) that shortcut resolution copies from the
target. -/
structure DFile where
  id : ID
  name : String
  mimeType : String
  parents : List ID
  trashed : Bool
  shortcutDetails : Option ShortcutDetails
  size : Int
  md5Checksum : String
  modifiedTime : String
deriving DecidableEq, Repr

/-- Errors out of the remote fetch: either a `googleapi.Error` carrying an
HTTP status code — the only kind `errors.As(err, &gerr)` matches — or any
other error. -/
inductive FetchError where
  | googleapi (code : Nat)
  | other (msg : String)
deriving DecidableEq, Repr

/-- The 404 test of drive.go line 1560: `errors.As(err, &gerr) && gerr.Code == 404`. -/
def isGoogle404 : FetchError → Bool
  | .googleapi code => code = 404
  | .other _ => false

/-- Predicate `isShortcut` (drive.go lines 1534-1536). -/
def isShortcutItem (item : DFile) : Bool :=
  item.mimeType = shortcutMimeType ∧ item.shortcutDetails ≠ none

/-- Function `resolveShortcut` (drive.go lines 1549-1575), instrumented with the list
of target IDs fetched (`f.getFile` calls).  The remote fetch is the injected
collaborator `fetch`.  Error wrapping (`fmt.Errorf("failed to resolve
shortcut: %w", err)`) is modelled as returning the wrapped error itself. -/
def resolveShortcut (skipShortcuts : Bool)
    (fetch : ID → Except FetchError DFile) (item : DFile) :
    Except FetchError DFile × List ID :=
  if skipShortcuts = true ∨ item.mimeType ≠ shortcutMimeType then
    (.ok item, [])
  else
    match item.shortcutDetails with
    | none => (.ok item, [])
    | some det =>
      match fetch det.targetId with
      | .error e =>
        if isGoogle404 e then
          (.ok { item with mimeType := shortcutMimeTypeDangling },
            [det.targetId])
        else
          (.error e, [det.targetId])
      | .ok newItem =>
        (.ok { newItem with
                name := item.name,
                parents := item.parents,
                trashed := item.trashed,
                id := joinID newItem.id item.id },
          [det.targetId])

/-- C7: for an alias item (a shortcut with a target reference, shortcuts not
skipped): a successful target fetch yields the merged item carrying the
target's content metadata (mime type, size, checksum, modification time)
with the alias's name, parents and trashed flag and composite ID
`joinID target.id alias.id`; a 404-class fetch failure yields the alias item
itself with the dangling mime type, its own ID kept, and no listing failure;
any other fetch error is propagated as a failure; and in every case the
resolver fetches exactly the one target reference — one hop, no
recursion. -/
theorem C7_resolveShortcut (fetch : ID → Except FetchError DFile)
    (item : DFile) (det : ShortcutDetails)
    (hmime : item.mimeType = shortcutMimeType)
    (hdet : item.shortcutDetails = some det) :
    (∀ target, fetch det.targetId = .ok target →
      (resolveShortcut false fetch item).1 =
        .ok { target with
               name := item.name,
               parents := item.parents,
               trashed := item.trashed,
               id := joinID target.id item.id }) ∧
      (∀ e, fetch det.targetId = .error e → isGoogle404 e = true →
        (resolveShortcut false fetch item).1 =
          .ok { item with mimeType := shortcutMimeTypeDangling }) ∧
      (∀ e, fetch det.targetId = .error e → isGoogle404 e = false →
        (resolveShortcut false fetch item).1 = .error e) ∧
      (resolveShortcut false fetch item).2 = [det.targetId] := by
  have hcond : ¬ ((false : Bool) = true ∨ item.mimeType ≠ shortcutMimeType) := by
    rintro (h | h)
    · exact Bool.false_ne_true h
    · exact h hmime
  refine ⟨?_, ?_, ?_, ?_⟩
  · intro target hfetch
    simp [resolveShortcut, hcond, hdet, hfetch, hmime]
  · intro e hfetch h404
    simp [resolveShortcut, hcond, hdet, hfetch, h404, hmime]
  · intro e hfetch h404
    simp [resolveShortcut, hcond, hdet, hfetch, h404, hmime]
  · rcases hfetch : fetch det.targetId with e | target
    · by_cases h404 : isGoogle404 e = true
      · simp [resolveShortcut, hcond, hdet, hfetch, h404, hmime]
      · simp [resolveShortcut, hcond, hdet, hfetch, h404, hmime]
    · simp [resolveShortcut, hcond, hdet, hfetch, hmime]

/-- A sample shortcut target used to exercise `resolveShortcut`. -/
def sampleTarget : DFile :=
  { id := ['t'], name := "target", mimeType := "text/plain",
    parents := [['r']], trashed := false, shortcutDetails := none,
    size := 5, md5Checksum := "m", modifiedTime := "2020" }

/-- A sample alias (shortcut) item pointing at `sampleTarget`. -/
def sampleAlias : DFile :=
  { id := ['a'], name := "alias", mimeType := shortcutMimeType,
    parents := [['p']], trashed := true,
    shortcutDetails := some { targetId := ['t'], targetMimeType := "text/plain" },
    size := 0, md5Checksum := "", modifiedTime := "2021" }

def fetchAlwaysOk : ID → Except FetchError DFile := fun _ => .ok sampleTarget

def fetchAlways404 : ID → Except FetchError DFile :=
  fun _ => .error (.googleapi 404)

def fetchAlways403 : ID → Except FetchError DFile :=
  fun _ => .error (.googleapi 403)

/-- Witness for C7: the three fetch outcomes at the concrete alias. -/
theorem C7_resolveShortcut_witness :
    (resolveShortcut false fetchAlwaysOk sampleAlias).1 =
      .ok { sampleTarget with
             name := sampleAlias.name, parents := sampleAlias.parents,
             trashed := sampleAlias.trashed,
             id := joinID sampleTarget.id sampleAlias.id } ∧
      (resolveShortcut false fetchAlways404 sampleAlias).1 =
        .ok { sampleAlias with mimeType := shortcutMimeTypeDangling } ∧
      (resolveShortcut false fetchAlways403 sampleAlias).1 =
        .error (.googleapi 403) ∧
      (resolveShortcut false fetchAlwaysOk sampleAlias).2 =
        [({ targetId := ['t'], targetMimeType := "text/plain" } :
          ShortcutDetails).targetId] :=
  ⟨(C7_resolveShortcut fetchAlwaysOk sampleAlias
      { targetId := ['t'], targetMimeType := "text/plain" } rfl rfl).1
      sampleTarget rfl,
    (C7_resolveShortcut fetchAlways404 sampleAlias
      { targetId := ['t'], targetMimeType := "text/plain" } rfl rfl).2.1
      (.googleapi 404) rfl rfl,
    (C7_resolveShortcut fetchAlways403 sampleAlias
      { targetId := ['t'], targetMimeType := "text/plain" } rfl rfl).2.2.1
      (.googleapi 403) rfl rfl,
    (C7_resolveShortcut fetchAlwaysOk sampleAlias
      { targetId := ['t'], targetMimeType := "text/plain" } rfl rfl).2.2.2⟩

/-- Events observed by the error-collecting loop of `ListR` (drive.go lines
1467-1477), serialized in the order the loop's mutex admits them: a value
received from the `out` channel (one per worker: the worker's first error,
or `nil` after the input channel closed), or the coordinator goroutine
closing the input channel and setting it to `nil` (drive.go lines
1458-1464). -/
inductive LEvent (E : Type) where
  | workerDone (e : Option E)
  | closeInput
deriving DecidableEq, Repr

/-- The mutable state of `ListR`'s collection phase: the named return `err`
and whether `in` is still non-nil. -/
structure CollectState (E : Type) where
  err : Option E
  inOpen : Bool
deriving DecidableEq, Repr

/-- One step of `ListR`'s error collection: on a received value `e`, the
body `if e != nil && in != nil { err = e; close(in); in = nil }` (drive.go
lines 1470-1475); on the coordinator's close, `if in != nil { close(in);
in = nil }` (drive.go lines 1459-1463). -/
def collectStep {E : Type} (st : CollectState E) : LEvent E → CollectState E
  | .closeInput => if st.inOpen then { st with inOpen := false } else st
  | .workerDone e =>
    match e with
    | none => st
    | some e0 =>
      if st.inOpen then { err := some e0, inOpen := false } else st

/-- The collection loop of `ListR` run over a whole event sequence, starting
from `err = nil` and an open channel. -/
def listRCollect {E : Type} (events : List (LEvent E)) : CollectState E :=
  events.foldl collectStep { err := none, inOpen := true }

/-- The value `ListR` returns (drive.go lines 1479-1489): the collected
`err` if non-nil, else the result of `list.Flush()`.  The collector has by
then consumed one `out` value per worker, i.e. every worker has exited. -/
def listRReturn {E : Type} (events : List (LEvent E)) (flushErr : Option E) :
    Option E :=
  match (listRCollect events).err with
  | some e => some e
  | none => flushErr

/-- The first worker error in arrival order, ignoring the close event —
what C1 claims `ListR` returns whenever it is non-nil. -/
def firstWorkerError {E : Type} : List (LEvent E) → Option E
  | [] => none
  | .workerDone (some e) :: _ => some e
  | .workerDone none :: rest => firstWorkerError rest
  | .closeInput :: rest => firstWorkerError rest

/-- The first worker error that arrives while the input channel is still
open — what `ListR` actually returns. -/
def firstErrBeforeClose {E : Type} : List (LEvent E) → Option E
  | [] => none
  | .closeInput :: _ => none
  | .workerDone none :: rest => firstErrBeforeClose rest
  | .workerDone (some e) :: _ => some e

theorem foldl_collectStep_closed {E : Type} (evs : List (LEvent E))
    (st : CollectState E) (h : st.inOpen = false) :
    evs.foldl collectStep st = st := by
  induction evs with
  | nil => rfl
  | cons ev rest ih =>
    have hstep : collectStep st ev = st := by
      cases ev with
      | closeInput => simp [collectStep, h]
      | workerDone e =>
        cases e with
        | none => rfl
        | some e0 => simp [collectStep, h]
    rw [List.foldl_cons, hstep, ih]

theorem listRCollect_err {E : Type} (events : List (LEvent E)) :
    (listRCollect events).err = firstErrBeforeClose events := by
  induction events with
  | nil => rfl
  | cons ev rest ih =>
    cases ev with
    | closeInput =>
      simp only [listRCollect, List.foldl_cons]
      rw [show collectStep { err := none, inOpen := true } (.closeInput : LEvent E) =
          { err := none, inOpen := false } by simp [collectStep]]
      rw [foldl_collectStep_closed rest _ rfl]
      rfl
    | workerDone e =>
      cases e with
      | none =>
        simp only [listRCollect, List.foldl_cons] at ih ⊢
        rw [show collectStep { err := none, inOpen := true }
            (.workerDone (none : Option E)) = { err := none, inOpen := true }
            from rfl]
        exact ih
      | some e0 =>
        simp only [listRCollect, List.foldl_cons]
        rw [show collectStep { err := none, inOpen := true }
            (.workerDone (some e0)) = { err := some e0, inOpen := false }
            by simp [collectStep]]
        rw [foldl_collectStep_closed rest _ rfl]
        rfl

/-- C1 counterexample: the claim says `ListR` surfaces the first worker
error.  In the schedule where the coordinator's close of the input channel
is admitted before the collector consumes the erroring worker's message —
reachable, since a worker releases its outstanding-job counts (drive.go
lines 1352-1354) before sending its error (lines 1356-1358), so the
coordinator's `wg.Wait()` can complete and close the channel first — the
guard `e != nil && in != nil` is false, the error is discarded, and `ListR`
returns `nil` although a callback/listing error occurred. -/
theorem C1_counterexample :
    listRReturn [LEvent.closeInput, LEvent.workerDone (some 0),
        LEvent.workerDone (none : Option Nat)] none = none ∧
      firstWorkerError [LEvent.closeInput, LEvent.workerDone (some 0),
        LEvent.workerDone (none : Option Nat)] = some 0 ∧
      (none : Option Nat) ≠ some 0 := by
  refine ⟨rfl, rfl, by decide⟩

/-- C1 amended: `ListR` returns, after consuming one terminal message per
worker (every worker has exited), the first worker error received while the
input channel was still open; if no error arrives before the close — in
particular if every directory was fully processed and every worker reported
`nil` — it returns the result of the final flush.  An error reported by a
worker after the coordinator closed the channel is discarded. -/
theorem C1_listR_first_error (events : List (LEvent Nat)) (flushErr : Option Nat) :
    (firstErrBeforeClose events = none →
      listRReturn events flushErr = flushErr) ∧
      (∀ e, firstErrBeforeClose events = some e →
        listRReturn events flushErr = some e) := by
  constructor
  · intro h
    simp [listRReturn, listRCollect_err, h]
  · intro e h
    simp [listRReturn, listRCollect_err, h]

/-- Witness for C1 amended: a clean two-worker run returns the flush result,
and a run whose first worker reports an error before the close returns that
error. -/
theorem C1_listR_first_error_witness :
    listRReturn [LEvent.workerDone (none : Option Nat),
        LEvent.workerDone none, LEvent.closeInput] none = none ∧
      listRReturn [LEvent.workerDone (some 7), LEvent.closeInput,
        LEvent.workerDone (none : Option Nat)] none = some 7 :=
  ⟨(C1_listR_first_error [LEvent.workerDone none, LEvent.workerDone none,
      LEvent.closeInput] none).1 rfl,
    (C1_listR_first_error [LEvent.workerDone (some 7), LEvent.closeInput,
      LEvent.workerDone none] none).2 7 rfl⟩

/-- One page of the remote `files.list` response (drive.go lines 490-556):
the items, the next-page token (`""` means no further page) and the
provider's incomplete-search flag. -/
structure Page where
  files : List DFile
  nextPageToken : String
  incompleteSearch : Bool
deriving DecidableEq, Repr

/-- The option and filter inputs of `Fs.list` (drive.go line 376) that the
per-item pipeline of lines 505-547 reads. -/
structure ListParams where
  skipShortcuts : Bool
  skipDanglingShortcuts : Bool
  directoriesOnly : Bool
  filesOnly : Bool
  title : String
  stems : List String
deriving DecidableEq, Repr

/-- Field access `item.ShortcutDetails.TargetMimeType` as read at drive.go lines 513 and
517; only read under `isShortcut(item)`, which guarantees the details are
present, so the default is never observed. -/
def shortcutTargetMime (item : DFile) : String :=
  match item.shortcutDetails with
  | some det => det.targetMimeType
  | none => ""

/-- The per-item pipeline of `Fs.list` (drive.go lines 505-547): decode the
name (collaborator `enc` models `f.opt.Enc.ToStandardName`); for shortcuts
apply the skip/type filters of lines 508-519, resolve (propagating any
resolution error as at line 522), and drop dangling shortcuts if directed
(line 526); apply the title/stem/export-name check of lines 530-547
(collaborator `exportName` models `f.findExportFormat`); finally invoke the
callback.  Result: `.error e` aborts the listing, `.ok none` means the item
was skipped (`continue`), `.ok (some (item, b))` means `fn` was invoked on
the (possibly resolved) item and returned `b`. -/
def listShortcutStage (P : ListParams) (fetch : ID → Except FetchError DFile)
    (item1 : DFile) : Except FetchError (Option DFile) :=
  if isShortcutItem item1 then
    if P.skipShortcuts then .ok none
    else if P.directoriesOnly = true ∧ shortcutTargetMime item1 ≠ driveFolderType then
      .ok none
    else if P.filesOnly = true ∧ shortcutTargetMime item1 = driveFolderType then
      .ok none
    else
      match (resolveShortcut P.skipShortcuts fetch item1).1 with
      | .error e => .error e
      | .ok item2 =>
        if P.skipDanglingShortcuts = true ∧ item2.mimeType = shortcutMimeTypeDangling then
          .ok none
        else .ok (some item2)
  else .ok (some item1)

/-- The title/stem/export-name check of drive.go lines 530-547, followed by
the callback invocation of line 548. -/
def listTitleStage (P : ListParams) (exportName : DFile → String)
    (fn : DFile → Bool) (afterShortcut : Except FetchError (Option DFile)) :
    Except FetchError (Option (DFile × Bool)) :=
  match afterShortcut with
  | .error e => .error e
  | .ok none => .ok none
  | .ok (some item) =>
    if P.title ≠ "" ∧ P.title ≠ item.name then
      if ¬ (item.name ∈ P.stems) then .ok none
      else if exportName item = "" ∨ exportName item ≠ P.title then .ok none
      else .ok (some (item, fn item))
    else .ok (some (item, fn item))

/-- Composition of the per-item pipeline: name decode (line 506), shortcut
stage (lines 507-529), title stage and callback (lines 530-548). -/
def processItem (P : ListParams) (enc : String → String)
    (exportName : DFile → String) (fetch : ID → Except FetchError DFile)
    (fn : DFile → Bool) (item0 : DFile) :
    Except FetchError (Option (DFile × Bool)) :=
  listTitleStage P exportName fn
    (listShortcutStage P fetch { item0 with name := enc item0.name })

/-- The inner `for _, item := range files.Files` loop of one page (drive.go
lines 505-552): items are processed in order; a pipeline error aborts with
that error; `fn` returning `true` stops with the early-exit flag set
(`found = true; break OUTER`).  Returns the flag and the list of items
passed to `fn` on this page. -/
def processFiles (P : ListParams) (enc : String → String)
    (exportName : DFile → String) (fetch : ID → Except FetchError DFile)
    (fn : DFile → Bool) : List DFile → Except FetchError (Bool × List DFile)
  | [] => .ok (false, [])
  | it :: rest =>
    match processItem P enc exportName fetch fn it with
    | .error e => .error e
    | .ok none => processFiles P enc exportName fetch fn rest
    | .ok (some (item, b)) =>
      if b then .ok (true, [item])
      else
        match processFiles P enc exportName fetch fn rest with
        | .error e => .error e
        | .ok pr => .ok (pr.1, item :: pr.2)

/-- What `Fs.list` produces, instrumented: `found` is the named return
(early-exit flag), `err` the returned error, `incompleteLogs` the number of
`search result INCOMPLETE` log lines emitted (drive.go lines 502-504), and
`calls` the items handed to the callback `fn`, in order. -/
structure FListResult where
  found : Bool
  err : Option FetchError
  incompleteLogs : Nat
  calls : List DFile
deriving DecidableEq, Repr

/-- The paged `OUTER` loop of `Fs.list` (drive.go lines 492-558) over the
remote's successive responses, each either a fetch error (the pacer's final
verdict, returned as at line 500) or a page.  Per page: the incomplete flag
is logged — only logged, it is neither returned nor retried (lines
502-504); the items are processed; on early exit the loop breaks with
`found = true`; otherwise the loop continues exactly when
`nextPageToken ≠ ""` (lines 553-556).  An exhausted response list models
the remote providing no further response and ends the loop. -/
def flist (P : ListParams) (enc : String → String)
    (exportName : DFile → String) (fetch : ID → Except FetchError DFile)
    (fn : DFile → Bool) : List (Except FetchError Page) → FListResult
  | [] => { found := false, err := none, incompleteLogs := 0, calls := [] }
  | .error e :: _ =>
    { found := false, err := some e, incompleteLogs := 0, calls := [] }
  | .ok page :: rest =>
    let inc : Nat := if page.incompleteSearch then 1 else 0
    match processFiles P enc exportName fetch fn page.files with
    | .error e =>
      { found := false, err := some e, incompleteLogs := inc, calls := [] }
    | .ok (true, calls) =>
      { found := true, err := none, incompleteLogs := inc, calls := calls }
    | .ok (false, calls) =>
      if page.nextPageToken = "" then
        { found := false, err := none, incompleteLogs := inc, calls := calls }
      else
        let tail := flist P enc exportName fetch fn rest
        { found := tail.found, err := tail.err,
          incompleteLogs := inc + tail.incompleteLogs,
          calls := calls ++ tail.calls }

/-- The same responses with every successfully fetched page's
incomplete-search flag flipped; used to show the flag does not influence
what `Fs.list` returns. -/
def flipIncomplete : List (Except FetchError Page) → List (Except FetchError Page) :=
  List.map (fun r =>
    match r with
    | .error e => .error e
    | .ok page => .ok { page with incompleteSearch := !page.incompleteSearch })

section ListModel

variable (P : ListParams) (enc : String → String) (exportName : DFile → String)
variable (fetch : ID → Except FetchError DFile) (fn : DFile → Bool)

theorem listTitleStage_fn_eq (aft : Except FetchError (Option DFile))
    (item : DFile) (b : Bool)
    (h : listTitleStage P exportName fn aft = .ok (some (item, b))) :
    b = fn item := by
  unfold listTitleStage at h
  split at h
  · exact absurd h (by simp)
  · exact absurd h (by simp)
  · split at h
    · split at h
      · exact absurd h (by simp)
      · split at h
        · exact absurd h (by simp)
        · simp only [Except.ok.injEq, Option.some.injEq, Prod.mk.injEq] at h
          obtain ⟨hi, hb⟩ := h
          subst hi; exact hb.symm
    · simp only [Except.ok.injEq, Option.some.injEq, Prod.mk.injEq] at h
      obtain ⟨hi, hb⟩ := h
      subst hi; exact hb.symm

theorem processItem_fn_eq (it item : DFile) (b : Bool)
    (h : processItem P enc exportName fetch fn it = .ok (some (item, b))) :
    b = fn item :=
  listTitleStage_fn_eq P exportName fn
    (listShortcutStage P fetch { it with name := enc it.name }) item b h

theorem processFiles_exit (fs : List DFile) (cs : List DFile)
    (h : processFiles P enc exportName fetch fn fs = .ok (true, cs)) :
    ∃ l, cs.getLast? = some l ∧ fn l = true := by
  induction fs generalizing cs with
  | nil => simp [processFiles] at h
  | cons it rest ih =>
    simp only [processFiles] at h
    cases hpi : processItem P enc exportName fetch fn it with
    | error e => rw [hpi] at h; exact absurd h (by simp)
    | ok o =>
      rw [hpi] at h
      cases o with
      | none => exact ih cs h
      | some pr0 =>
        rcases pr0 with ⟨item, bi⟩
        cases bi with
        | true =>
          simp only [if_pos rfl] at h
          have hcs : cs = [item] := by
            cases h; rfl
          subst hcs
          refine ⟨item, rfl, ?_⟩
          have := processItem_fn_eq P enc exportName fetch fn it item true hpi
          exact this.symm
        | false =>
          simp only [if_neg Bool.false_ne_true] at h
          cases hrec : processFiles P enc exportName fetch fn rest with
          | error e => rw [hrec] at h; exact absurd h (by simp)
          | ok pr =>
            rw [hrec] at h
            rcases pr with ⟨bf, csf⟩
            have hb : bf = true ∧ cs = item :: csf := by
              cases h; exact ⟨rfl, rfl⟩
            obtain ⟨hbf, hcs⟩ := hb
            subst hbf hcs
            obtain ⟨l, hl, hfl⟩ := ih csf hrec
            refine ⟨l, ?_, hfl⟩
            cases csf with
            | nil => simp at hl
            | cons c0 ct => rw [List.getLast?_cons_cons]; exact hl

/-- Per-page incomplete-log count of drive.go lines 502-504. -/
def incOf (page : Page) : Nat :=
  if page.incompleteSearch then 1 else 0

theorem flist_step_error (e : FetchError) (rest : List (Except FetchError Page)) :
    flist P enc exportName fetch fn (.error e :: rest) =
      { found := false, err := some e, incompleteLogs := 0, calls := [] } := rfl

theorem flist_step_pfError (page : Page) (rest : List (Except FetchError Page))
    (e : FetchError)
    (hpf : processFiles P enc exportName fetch fn page.files = .error e) :
    flist P enc exportName fetch fn (.ok page :: rest) =
      { found := false, err := some e, incompleteLogs := incOf page,
        calls := [] } := by
  simp only [flist, hpf, incOf]

theorem flist_step_exit (page : Page) (rest : List (Except FetchError Page))
    (cs : List DFile)
    (hpf : processFiles P enc exportName fetch fn page.files = .ok (true, cs)) :
    flist P enc exportName fetch fn (.ok page :: rest) =
      { found := true, err := none, incompleteLogs := incOf page,
        calls := cs } := by
  simp only [flist, hpf, incOf]

theorem flist_step_last (page : Page) (rest : List (Except FetchError Page))
    (cs : List DFile)
    (hpf : processFiles P enc exportName fetch fn page.files = .ok (false, cs))
    (htok : page.nextPageToken = "") :
    flist P enc exportName fetch fn (.ok page :: rest) =
      { found := false, err := none, incompleteLogs := incOf page,
        calls := cs } := by
  simp only [flist, hpf, htok, if_pos, incOf]

theorem flist_step_next (page : Page) (rest : List (Except FetchError Page))
    (cs : List DFile)
    (hpf : processFiles P enc exportName fetch fn page.files = .ok (false, cs))
    (htok : page.nextPageToken ≠ "") :
    flist P enc exportName fetch fn (.ok page :: rest) =
      { found := (flist P enc exportName fetch fn rest).found,
        err := (flist P enc exportName fetch fn rest).err,
        incompleteLogs :=
          incOf page + (flist P enc exportName fetch fn rest).incompleteLogs,
        calls := cs ++ (flist P enc exportName fetch fn rest).calls } := by
  simp only [flist, hpf, if_neg htok, incOf]

theorem flist_found_exit (rs : List (Except FetchError Page))
    (h : (flist P enc exportName fetch fn rs).found = true) :
    ∃ l, (flist P enc exportName fetch fn rs).calls.getLast? = some l ∧
      fn l = true := by
  induction rs with
  | nil => simp [flist] at h
  | cons r rest ih =>
    cases r with
    | error e =>
      rw [flist_step_error] at h
      simp at h
    | ok page =>
      cases hpf : processFiles P enc exportName fetch fn page.files with
      | error e =>
        rw [flist_step_pfError P enc exportName fetch fn page rest e hpf] at h
        simp at h
      | ok pr =>
        rcases pr with ⟨bf, csf⟩
        cases bf with
        | true =>
          rw [flist_step_exit P enc exportName fetch fn page rest csf hpf]
          exact processFiles_exit P enc exportName fetch fn page.files csf hpf
        | false =>
          by_cases htok : page.nextPageToken = ""
          · rw [flist_step_last P enc exportName fetch fn page rest csf hpf htok] at h
            simp at h
          · rw [flist_step_next P enc exportName fetch fn page rest csf hpf htok] at h ⊢
            simp only at h ⊢
            obtain ⟨l, hl, hfl⟩ := ih h
            refine ⟨l, ?_, hfl⟩
            have hne : (flist P enc exportName fetch fn rest).calls ≠ [] := by
              intro he; rw [he] at hl; simp at hl
            rw [List.getLast?_append_of_ne_nil csf hne]
            exact hl

theorem flist_flip_incomplete (rs : List (Except FetchError Page)) :
    (flist P enc exportName fetch fn (flipIncomplete rs)).found =
        (flist P enc exportName fetch fn rs).found ∧
      (flist P enc exportName fetch fn (flipIncomplete rs)).err =
        (flist P enc exportName fetch fn rs).err ∧
      (flist P enc exportName fetch fn (flipIncomplete rs)).calls =
        (flist P enc exportName fetch fn rs).calls := by
  induction rs with
  | nil => exact ⟨rfl, rfl, rfl⟩
  | cons r rest ih =>
    cases r with
    | error e => exact ⟨rfl, rfl, rfl⟩
    | ok page =>
      have hflip : flipIncomplete (.ok page :: rest) =
          .ok { page with incompleteSearch := !page.incompleteSearch } ::
            flipIncomplete rest := rfl
      rw [hflip]
      cases hpf : processFiles P enc exportName fetch fn page.files with
      | error e =>
        rw [flist_step_pfError P enc exportName fetch fn page rest e hpf,
          flist_step_pfError P enc exportName fetch fn
            { page with incompleteSearch := !page.incompleteSearch }
            (flipIncomplete rest) e hpf]
        exact ⟨rfl, rfl, rfl⟩
      | ok pr =>
        rcases pr with ⟨bf, csf⟩
        cases bf with
        | true =>
          rw [flist_step_exit P enc exportName fetch fn page rest csf hpf,
            flist_step_exit P enc exportName fetch fn
              { page with incompleteSearch := !page.incompleteSearch }
              (flipIncomplete rest) csf hpf]
          exact ⟨rfl, rfl, rfl⟩
        | false =>
          by_cases htok : page.nextPageToken = ""
          · rw [flist_step_last P enc exportName fetch fn page rest csf hpf htok,
              flist_step_last P enc exportName fetch fn
                { page with incompleteSearch := !page.incompleteSearch }
                (flipIncomplete rest) csf hpf htok]
            exact ⟨rfl, rfl, rfl⟩
          · rw [flist_step_next P enc exportName fetch fn page rest csf hpf htok,
              flist_step_next P enc exportName fetch fn
                { page with incompleteSearch := !page.incompleteSearch }
                (flipIncomplete rest) csf hpf htok]
            exact ⟨ih.1, ih.2.1, by rw [ih.2.2]⟩

theorem flist_incomplete_logged (page : Page)
    (rest : List (Except FetchError Page)) :
    (flist P enc exportName fetch fn
        (.ok { page with incompleteSearch := true } :: rest)).incompleteLogs =
      1 + (flist P enc exportName fetch fn
        (.ok { page with incompleteSearch := false } :: rest)).incompleteLogs := by
  cases hpf : processFiles P enc exportName fetch fn page.files with
  | error e =>
    rw [flist_step_pfError P enc exportName fetch fn
        { page with incompleteSearch := true } rest e hpf,
      flist_step_pfError P enc exportName fetch fn
        { page with incompleteSearch := false } rest e hpf]
    simp [incOf]
  | ok pr =>
    rcases pr with ⟨bf, csf⟩
    cases bf with
    | true =>
      rw [flist_step_exit P enc exportName fetch fn
          { page with incompleteSearch := true } rest csf hpf,
        flist_step_exit P enc exportName fetch fn
          { page with incompleteSearch := false } rest csf hpf]
      simp [incOf]
    | false =>
      by_cases htok : page.nextPageToken = ""
      · rw [flist_step_last P enc exportName fetch fn
            { page with incompleteSearch := true } rest csf hpf htok,
          flist_step_last P enc exportName fetch fn
            { page with incompleteSearch := false } rest csf hpf htok]
        simp [incOf]
      · rw [flist_step_next P enc exportName fetch fn
            { page with incompleteSearch := true } rest csf hpf htok,
          flist_step_next P enc exportName fetch fn
            { page with incompleteSearch := false } rest csf hpf htok]
        simp [incOf]

end ListModel

/-- A plain (non-shortcut) remote file used to exercise `flist`. -/
def plainItem : DFile :=
  { id := ['f'], name := "file1", mimeType := "text/plain",
    parents := [['d']], trashed := false, shortcutDetails := none,
    size := 1, md5Checksum := "h", modifiedTime := "2020" }

/-- Parameters of a plain recursive listing: no skips, no type filters, no
title search — the configuration `listRRunner` uses. -/
def plainParams : ListParams :=
  { skipShortcuts := false, skipDanglingShortcuts := false,
    directoriesOnly := false, filesOnly := false, title := "", stems := [] }

def encId : String → String := fun s => s

def exportNone : DFile → String := fun _ => ""

def fnFalse : DFile → Bool := fun _ => false

def fnTrue : DFile → Bool := fun _ => true

/-- A final page: one item, no further page token, marked incomplete. -/
def pageOne : Page :=
  { files := [plainItem], nextPageToken := "", incompleteSearch := true }

/-- A non-final page: one item and a further page token. -/
def pageMore : Page :=
  { files := [plainItem], nextPageToken := "tok", incompleteSearch := false }

/-- An empty final page. -/
def pageLast : Page :=
  { files := [], nextPageToken := "", incompleteSearch := false }

/-- C8 counterexample: the claim says the lister returns whether any item
was found and whether the provider marked the search incomplete.  On a page
holding one item (delivered to the callback, which declines to stop) and
flagged incomplete, the returned `found` is `false` — it reports the
callback's early-exit request, not item presence — and the incomplete flag
reaches only the log counter, there being no returned value carrying it. -/
theorem C8_counterexample :
    (flist plainParams encId exportNone fetchAlwaysOk fnFalse
        [.ok pageOne]).found = false ∧
      (flist plainParams encId exportNone fetchAlwaysOk fnFalse
        [.ok pageOne]).calls = [plainItem] ∧
      (flist plainParams encId exportNone fetchAlwaysOk fnFalse
        [.ok pageOne]).incompleteLogs = 1 :=
  ⟨rfl, rfl, rfl⟩

/-- C8 amended: the single-directory lister paginates until the provider
reports no further page token unless the per-item callback requests early
termination or an error occurs; its returned `found` reports whether the
callback requested early termination — the last item handed to the callback
returned `true` — not whether any item was found; and the provider's
incomplete-search flag is only logged (one log line per incomplete page,
the page never retried): flipping it changes none of the returned values.
Concretely: (1) `found = true` implies the last callback invocation
returned `true`; (2) the returned `found`/`err`/`calls` are unchanged under
flipping every page's incomplete flag; (3) a page processed with the flag
set contributes exactly one log line more than the same page without it;
(4) after a page with a further token and no early exit, the loop continues
with the remaining responses; (5) a page with no further token ends the
listing there regardless of any remaining responses; (6) an early exit ends
the listing with `found = true`. -/
theorem C8_list_early_exit_pagination (P : ListParams) (enc : String → String)
    (exportName : DFile → String) (fetch : ID → Except FetchError DFile)
    (fn : DFile → Bool) (rs : List (Except FetchError Page)) (page : Page)
    (rest : List (Except FetchError Page)) (cs : List DFile) :
    ((flist P enc exportName fetch fn rs).found = true →
      ∃ l, (flist P enc exportName fetch fn rs).calls.getLast? = some l ∧
        fn l = true) ∧
      ((flist P enc exportName fetch fn (flipIncomplete rs)).found =
          (flist P enc exportName fetch fn rs).found ∧
        (flist P enc exportName fetch fn (flipIncomplete rs)).err =
          (flist P enc exportName fetch fn rs).err ∧
        (flist P enc exportName fetch fn (flipIncomplete rs)).calls =
          (flist P enc exportName fetch fn rs).calls) ∧
      ((flist P enc exportName fetch fn
          (.ok { page with incompleteSearch := true } :: rest)).incompleteLogs =
        1 + (flist P enc exportName fetch fn
          (.ok { page with incompleteSearch := false } :: rest)).incompleteLogs) ∧
      (processFiles P enc exportName fetch fn page.files = .ok (false, cs) →
        page.nextPageToken ≠ "" →
        flist P enc exportName fetch fn (.ok page :: rest) =
          { found := (flist P enc exportName fetch fn rest).found,
            err := (flist P enc exportName fetch fn rest).err,
            incompleteLogs :=
              incOf page + (flist P enc exportName fetch fn rest).incompleteLogs,
            calls := cs ++ (flist P enc exportName fetch fn rest).calls }) ∧
      (processFiles P enc exportName fetch fn page.files = .ok (false, cs) →
        page.nextPageToken = "" →
        flist P enc exportName fetch fn (.ok page :: rest) =
          { found := false, err := none, incompleteLogs := incOf page,
            calls := cs }) ∧
      (processFiles P enc exportName fetch fn page.files = .ok (true, cs) →
        flist P enc exportName fetch fn (.ok page :: rest) =
          { found := true, err := none, incompleteLogs := incOf page,
            calls := cs }) :=
  ⟨flist_found_exit P enc exportName fetch fn rs,
    flist_flip_incomplete P enc exportName fetch fn rs,
    flist_incomplete_logged P enc exportName fetch fn page rest,
    fun hpf htok => flist_step_next P enc exportName fetch fn page rest cs hpf htok,
    fun hpf htok => flist_step_last P enc exportName fetch fn page rest cs hpf htok,
    fun hpf => flist_step_exit P enc exportName fetch fn page rest cs hpf⟩

/-- Witness for C8 amended: the hypothesis-carrying parts exercised at
concrete pages — an early-exiting run, a continuing page followed by a
final page, a final page followed by responses that are never consumed, and
an early exit that likewise discards the remaining responses. -/
theorem C8_list_early_exit_pagination_witness :
    (∃ l, (flist plainParams encId exportNone fetchAlwaysOk fnTrue
        [.ok pageOne]).calls.getLast? = some l ∧ fnTrue l = true) ∧
      flist plainParams encId exportNone fetchAlwaysOk fnFalse
          (.ok pageMore :: [.ok pageLast]) =
        { found := (flist plainParams encId exportNone fetchAlwaysOk fnFalse
            [.ok pageLast]).found,
          err := (flist plainParams encId exportNone fetchAlwaysOk fnFalse
            [.ok pageLast]).err,
          incompleteLogs := incOf pageMore +
            (flist plainParams encId exportNone fetchAlwaysOk fnFalse
              [.ok pageLast]).incompleteLogs,
          calls := [plainItem] ++
            (flist plainParams encId exportNone fetchAlwaysOk fnFalse
              [.ok pageLast]).calls } ∧
      flist plainParams encId exportNone fetchAlwaysOk fnFalse
          (.ok pageOne :: [.error (.other "never fetched")]) =
        { found := false, err := none, incompleteLogs := incOf pageOne,
          calls := [plainItem] } ∧
      flist plainParams encId exportNone fetchAlwaysOk fnTrue
          (.ok pageOne :: [.error (.other "never fetched")]) =
        { found := true, err := none, incompleteLogs := incOf pageOne,
          calls := [plainItem] } :=
  ⟨(C8_list_early_exit_pagination plainParams encId exportNone fetchAlwaysOk
      fnTrue [.ok pageOne] pageOne [] []).1 rfl,
    (C8_list_early_exit_pagination plainParams encId exportNone fetchAlwaysOk
      fnFalse [] pageMore [.ok pageLast] [plainItem]).2.2.2.1 rfl (by decide),
    (C8_list_early_exit_pagination plainParams encId exportNone fetchAlwaysOk
      fnFalse [] pageOne [.error (.other "never fetched")]
      [plainItem]).2.2.2.2.1 rfl rfl,
    (C8_list_early_exit_pagination plainParams encId exportNone fetchAlwaysOk
      fnTrue [] pageOne [.error (.other "never fetched")]
      [plainItem]).2.2.2.2.2 rfl⟩

end Clouddrive
